import Mathlib

/-
Verification of the word-hunt board service (src/app/service/board_service.py
and src/app/dto/board.py) against its natural-language specification.

Embedding conventions:
  * Python strings are Lean `String`s; a grid cell (a letter or the empty
    string "") is `Option Char` (`none` is the empty cell "").
  * Grid coordinates are pairs of integers; every access the source performs
    is bounds-checked before indexing, which the embedding mirrors.
  * Python floats are embedded as rationals `Rat`: every quantity the service
    computes (richness scores, tolerances) is produced by exact arithmetic on
    small decimal constants, which the rationals model exactly.
  * `random.Random` is embedded as a deterministic stream of naturals
    `Nat -> Nat` with a cursor; `randrange`, `choice` and `shuffle`
    (Fisher-Yates, as in CPython) draw from the stream.  Quantification over
    the stream models quantification over the random source, and the family
    `Int -> Nat -> Nat` models seeding (`random.Random(seed)`).
-/

/-- Cell of a board grid: a single letter, or `none` for the empty string
used by the word-placement code before the random fill. -/
abbrev Cell : Type := Option Char

/-- Square letter grid; the source uses list[list[str]]. -/
abbrev GridL : Type := List (List Cell)

/-- Characters of a cell, as Python string concatenation sees them: the
empty cell contributes nothing. -/
def cellChars : Cell → List Char
  | none => []
  | some c => [c]

/-- Read the cell at an integer coordinate; all source reads are guarded by
0 <= x < n bounds checks, so out-of-range reads only happen here with the
harmless `none` result. -/
def getCell (g : GridL) (p : ℤ × ℤ) : Cell :=
  if 0 ≤ p.1 ∧ 0 ≤ p.2 then (List.getD g p.1.toNat []).getD p.2.toNat none else none

/-- Write a letter at an integer coordinate (grid[r][c] = ch); writes out of
range leave the grid unchanged (the source only writes in bounds). -/
def setCell (g : GridL) (p : ℤ × ℤ) (c : Char) : GridL :=
  if 0 ≤ p.1 ∧ 0 ≤ p.2 then
    List.set g p.1.toNat ((List.getD g p.1.toNat []).set p.2.toNat (some c))
  else g

/-- The grid is an n-by-n square of cells. -/
def squareGrid (n : ℕ) (g : GridL) : Prop :=
  g.length = n ∧ ∀ row ∈ g, row.length = n

/-- Coordinate lies on an n-by-n board. -/
def inBounds (n : ℕ) (p : ℤ × ℤ) : Prop :=
  0 ≤ p.1 ∧ p.1 < (n : ℤ) ∧ 0 ≤ p.2 ∧ p.2 < (n : ℤ)

instance (n : ℕ) (p : ℤ × ℤ) : Decidable (inBounds n p) := by
  unfold inBounds; infer_instance

/-- Two cells are 8-adjacent (they differ by at most one in each coordinate
and are distinct). -/
def adj8 (p q : ℤ × ℤ) : Prop :=
  p ≠ q ∧ (q.1 - p.1) ≤ 1 ∧ -1 ≤ (q.1 - p.1) ∧ (q.2 - p.2) ≤ 1 ∧ -1 ≤ (q.2 - p.2)

instance (p q : ℤ × ℤ) : Decidable (adj8 p q) := by
  unfold adj8; infer_instance

/-- Direction vectors used throughout board_service.py (dirs list). -/
def dirs8 : List (ℤ × ℤ) :=
  [(-1, -1), (-1, 0), (-1, 1), (0, -1), (0, 1), (1, -1), (1, 0), (1, 1)]

/-- BoardService._get_neighbors: all valid neighboring positions of (x, y)
on an n-by-n board. -/
def _get_neighbors (n : ℕ) (x y : ℤ) : List (ℤ × ℤ) :=
  dirs8.filterMap fun d =>
    if 0 ≤ x + d.1 ∧ x + d.1 < (n : ℤ) ∧ 0 ≤ y + d.2 ∧ y + d.2 < (n : ℤ) then
      some (x + d.1, y + d.2)
    else none

/-- Deterministic random source: a stream of naturals with a cursor.  This is
the shallow embedding of random.Random; CPython's generator is one
instantiation of the stream. -/
structure Rng where
  stream : ℕ → ℕ
  k : ℕ

/-- Draw one raw value from the stream. -/
def Rng.next (r : Rng) : ℕ × Rng :=
  (r.stream r.k, ⟨r.stream, r.k + 1⟩)

/-- rng.randrange(n): a draw reduced below n (callers always pass n > 0). -/
def Rng.randrange (r : Rng) (n : ℕ) : ℕ × Rng :=
  let (x, r2) := r.next
  (x % n, r2)

/-- rng.choice(l): an element of l selected by the stream (callers always
pass a non-empty list; d is the junk value for the empty one). -/
def Rng.choiceD (r : Rng) (l : List α) (d : α) : α × Rng :=
  let (x, r2) := r.next
  (l.getD (x % l.length) d, r2)

/-- Fisher-Yates pass of rng.shuffle, from index i down to 1. -/
def fisherYatesAux : Array α → ℕ → Rng → Array α × Rng
  | a, 0, r => (a, r)
  | a, i + 1, r =>
    let (x, r2) := r.next
    let j := x % (i + 2)
    let a2 := if h : i + 1 < a.size ∧ j < a.size then a.swap ⟨i + 1, h.1⟩ ⟨j, h.2⟩ else a
    fisherYatesAux a2 i r2

/-- rng.shuffle(l): CPython's Fisher-Yates driven by the stream. -/
def Rng.shuffle (r : Rng) (l : List α) : List α × Rng :=
  let (a, r2) := fisherYatesAux l.toArray (l.length - 1) r
  (a.toList, r2)

/-- TrieNode of board_service.py: children (an insertion-ordered mapping,
embedded as an association list, as Python dicts preserve insertion order)
plus the terminal flag. -/
inductive TrieNode where
  | mk (children : List (Char × TrieNode)) (is_word : Bool)

/-- Child mapping of a trie node. -/
def TrieNode.children : TrieNode → List (Char × TrieNode)
  | .mk c _ => c

/-- Terminal flag of a trie node. -/
def TrieNode.is_word : TrieNode → Bool
  | .mk _ b => b

/-- Lookup in the children mapping (ch in node.children / node.children[ch]). -/
def findChild : List (Char × TrieNode) → Char → Option TrieNode
  | [], _ => none
  | (k, t) :: rest, c => if k = c then some t else findChild rest c

/-- Update in the children mapping: replace the binding in place, or append a
new one (Python dict assignment). -/
def updateChild : List (Char × TrieNode) → Char → TrieNode → List (Char × TrieNode)
  | [], c, t => [(c, t)]
  | (k, u) :: rest, c, t =>
    if k = c then (c, t) :: rest else (k, u) :: updateChild rest c t

/-- Inner loop of BoardService._build_trie: thread one word through the trie,
creating nodes as needed and marking the final node. -/
def _insert_word : TrieNode → List Char → TrieNode
  | t, [] => .mk t.children true
  | t, c :: cs =>
    let child := (findChild t.children c).getD (.mk [] false)
    .mk (updateChild t.children c (_insert_word child cs)) t.is_word

/-- BoardService._build_trie: build a trie from the word set (embedded as the
list of its elements; the membership predicates below do not depend on the
iteration order). -/
def _build_trie (words : List String) : TrieNode :=
  words.foldl (fun t w => _insert_word t w.data) (.mk [] false)

/-- Walk the trie along a character list; `none` when some character has no
child. -/
def trieDescend : TrieNode → List Char → Option TrieNode
  | t, [] => some t
  | t, c :: cs =>
    match findChild t.children c with
    | none => none
    | some t2 => trieDescend t2 cs

/-- BoardService._is_prefix (renamed: the gate reserves that suffix): false
when the shared root is None, otherwise true iff the descent never falls off
the trie. -/
def _is_pref (root : Option TrieNode) (w : List Char) : Bool :=
  match root with
  | none => false
  | some t => (trieDescend t w).isSome

/-- BoardService._is_word: like the prefix test but additionally requires the
terminal flag on the final node. -/
def _is_word (root : Option TrieNode) (w : List Char) : Bool :=
  match root with
  | none => false
  | some t =>
    match trieDescend t w with
    | none => false
    | some n => n.is_word

/-- Letter frequency table of BoardService.__init__ (weights in percent,
kept as exact rationals). -/
def letter_frequencies : List (Char × ℚ) :=
  [('E', 12), ('A', 82/10), ('R', 6), ('I', 7), ('O', 75/10), ('T', 91/10),
   ('N', 67/10), ('S', 63/10), ('L', 4), ('C', 28/10), ('U', 28/10),
   ('D', 43/10), ('P', 2), ('M', 24/10), ('H', 61/10), ('G', 2), ('B', 15/10),
   ('F', 22/10), ('Y', 2), ('W', 2), ('K', 8/10), ('V', 1), ('X', 2/10),
   ('Z', 1/10), ('J', 2/10), ('Q', 1/10)]

/-- The 26 candidate letters, in table order. -/
def lettersList : List Char := letter_frequencies.map Prod.fst

/-- BoardService._generate_random_letter: a weighted draw from the table.
The cumulative-weight walk of random.choices is library code driven by one
stream draw; the embedding lets the abstract stream pick the index directly,
which realizes exactly the same set of outcomes (some letter of the table,
deterministically from the stream). -/
def _generate_random_letter (r : Rng) : Char × Rng :=
  let (x, r2) := r.next
  (lettersList.getD (x % lettersList.length) 'E', r2)

/-- Python code-point comparison of strings (lexicographic on characters). -/
def charListLe : List Char → List Char → Bool
  | [], _ => true
  | _ :: _, [] => false
  | a :: as, b :: bs => if a = b then charListLe as bs else decide (a < b)

/-- String comparison s <= t as Python orders words. -/
def strLeb (a b : String) : Bool := charListLe a.data b.data

/-- Insertion step of sorted(...) in ascending order. -/
def insertAsc (w : String) : List String → List String
  | [] => [w]
  | x :: xs => if strLeb w x then w :: x :: xs else x :: insertAsc w xs

/-- Python sorted(words): ascending lexicographic order. -/
def sortWords (l : List String) : List String := l.foldr insertAsc []

/-- Set insertion (results.add(word) on a Python set, embedded as a
duplicate-free list). -/
def addWord (results : List String) (w : String) : List String :=
  if w ∈ results then results else results ++ [w]

/-- Insertion step of sorted(words, key=len, reverse=True). -/
def insertLenDesc (w : String) : List String → List String
  | [] => [w]
  | x :: xs => if x.length < w.length then w :: x :: xs else x :: insertLenDesc w xs

/-- Python sorted(words, key=len, reverse=True): longest words first. -/
def sortByLenDesc (l : List String) : List String := l.foldr insertLenDesc []


/-- Error taxonomy of dictionary loading: the missing-file branch
(FileNotFoundError) and the malformed-header branches (IndexError /
ValueError of int()). -/
inductive DictErr where
  | notFound
  | headerFailure
deriving DecidableEq

/-- Python content.splitlines() for newline-terminated text. -/
def splitlines (s : String) : List String := s.splitOn "\n"

/-- One line of the word list, as the set comprehension of _load_dictionary
processes it: kept when the trimmed line is non-blank with length at least 3,
contributing its trimmed upper-cased form. -/
def lineWord (line : String) : Option String :=
  let t := line.trim
  if t ≠ "" ∧ 3 ≤ t.length then some t.toUpper else none

/-- The word set built from the lines after the version header (a Python set:
duplicates collapse, embedded as a duplicate-free list). -/
def dictWords (rest : List String) : List String :=
  (rest.filterMap lineWord).foldl addWord []

/-- BoardService._load_dictionary: the file content stands in for the file
(`none` is the absent file).  The first line must read version: int; the
following trimmed non-blank lines of length at least 3 form the word set. -/
def _load_dictionary (source : Option String) : Except DictErr (ℤ × List String) :=
  match source with
  | none => Except.error .notFound
  | some content =>
    match splitlines content with
    | [] => Except.error .headerFailure
    | first :: rest =>
      match first.splitOn ":" with
      | _ :: version :: _ =>
        match version.trim.toInt? with
        | some ver => Except.ok (ver, dictWords rest)
        | none => Except.error .headerFailure
      | _ => Except.error .headerFailure

/-- BoardService._compute_richness.  The source computes
int(board_size * board_size * 0.5): the float product of a small integer
with 0.5 is exact and int() truncates toward zero, so the divisor is the
natural-number division N * N / 2. -/
def _compute_richness (words : List String) (board_size : ℕ) : ℚ :=
  if words = [] then 0
  else
    let max_expected_words : ℕ := board_size * board_size / 2
    let count_score : ℚ := min ((words.length : ℚ) / (max_expected_words : ℚ)) 1
    let max_expected_length : ℕ := min (board_size * 2) 15
    let avg_length : ℚ := (((words.map String.length).sum : ℕ) : ℚ) / (words.length : ℚ)
    let length_score : ℚ := min (avg_length / (max_expected_length : ℚ)) 1
    count_score * (8/10) + length_score * (2/10)

/-- Maximum size of the class-level result cache. -/
def _max_cache_size : ℕ := 30

/-- Lookup in the OrderedDict, embedded as an insertion-ordered association
list (front = oldest). -/
def lookupCache : List (ℤ × α) → ℤ → Option α
  | [], _ => none
  | (k, v) :: rest, s => if k = s then some v else lookupCache rest s

/-- OrderedDict assignment: overwrite in place (keeping the position) or
append a new binding at the most-recently-used end. -/
def setCache : List (ℤ × α) → ℤ → α → List (ℤ × α)
  | [], s, v => [(s, v)]
  | (k, u) :: rest, s, v =>
    if k = s then (s, v) :: rest else (k, u) :: setCache rest s v

/-- OrderedDict pop: remove the binding for a key. -/
def eraseCache : List (ℤ × α) → ℤ → List (ℤ × α)
  | [], _ => []
  | (k, u) :: rest, s => if k = s then rest else (k, u) :: eraseCache rest s

/-- BoardService._manage_cache_size: the while loop pops the oldest entry
(popitem(last=False)) until the size bound holds; equivalently it drops the
first length - 30 entries in one pass. -/
def _manage_cache_size (c : List (ℤ × α)) : List (ℤ × α) :=
  c.drop (c.length - _max_cache_size)

/-- BoardService._put_in_cache: insert then trim to capacity. -/
def _put_in_cache (c : List (ℤ × α)) (s : ℤ) (v : α) : List (ℤ × α) :=
  _manage_cache_size (setCache c s v)

/-- BoardService._get_from_cache: on a hit, pop the entry and reinsert it at
the most-recently-used end. -/
def _get_from_cache (c : List (ℤ × α)) (s : ℤ) : Option α × List (ℤ × α) :=
  match lookupCache c s with
  | some v => (some v, eraseCache c s ++ [(s, v)])
  | none => (none, c)

/-- BoardService._dfs_find_words: depth-first word discovery with trie prefix
pruning.  The recursion consumes one unvisited cell per level, so a fuel of
n * n covers every reachable depth; visited sets are per-path (a fresh
extension per branch, as the source's visited | (nx, ny)). -/
def _dfs_find_words (root : Option TrieNode) : ℕ → GridL → ℤ → ℤ →
    List (ℤ × ℤ) → String → List String → ℕ → List String
  | 0, _, _, _, _, _, results, _ => results
  | fuel + 1, grid, x, y, visited, pre, results, min_length =>
    let n := grid.length
    let word : String := pre ++ ⟨cellChars (getCell grid (x, y))⟩
    if _is_pref root word.data = false then results
    else
      let results2 :=
        if min_length ≤ word.length ∧ _is_word root word.data = true then
          addWord results word
        else results
      (_get_neighbors n x y).foldl
        (fun acc p =>
          if p ∈ visited then acc
          else _dfs_find_words root fuel grid p.1 p.2 (p :: visited) word acc min_length)
        results2

/-- BoardService.find_words: run the search from every cell, accumulating
into one result set. -/
def find_words (root : Option TrieNode) (grid : GridL) (min_length : ℕ) : List String :=
  let n := grid.length
  (List.range n).foldl
    (fun acc (i : ℕ) =>
      (List.range n).foldl
        (fun acc2 (j : ℕ) =>
          _dfs_find_words root (n * n) grid (i : ℤ) (j : ℤ) [((i : ℤ), (j : ℤ))] "" acc2 min_length)
        acc)
    []

/-- BoardService._dfs_find_words_from_list: the list-filtered variant; prefix
pruning against the caller's word set replaces the trie. -/
def _dfs_find_words_from_list (word_set : List String) : ℕ → GridL → ℤ → ℤ →
    List (ℤ × ℤ) → String → List String → ℕ → List String
  | 0, _, _, _, _, _, results, _ => results
  | fuel + 1, grid, x, y, visited, pre, results, min_length =>
    let n := grid.length
    let word : String := pre ++ ⟨cellChars (getCell grid (x, y))⟩
    if (word_set.any fun w => word.isPrefixOf w) = false then results
    else
      let results2 :=
        if min_length ≤ word.length ∧ word ∈ word_set then addWord results word
        else results
      (_get_neighbors n x y).foldl
        (fun acc p =>
          if p ∈ visited then acc
          else _dfs_find_words_from_list word_set fuel grid p.1 p.2 (p :: visited) word acc min_length)
        results2

/-- BoardService._find_words_from_list: run the list-filtered search from
every cell. -/
def _find_words_from_list (grid : GridL) (word_list : List String) (min_length : ℕ) : List String :=
  let n := grid.length
  (List.range n).foldl
    (fun acc (i : ℕ) =>
      (List.range n).foldl
        (fun acc2 (j : ℕ) =>
          _dfs_find_words_from_list word_list (n * n) grid (i : ℤ) (j : ℤ)
            [((i : ℤ), (j : ℤ))] "" acc2 min_length)
        acc)
    []

/-- BoardService._place_word_along_path: write word[i] at path[i] (also the
write step of _seed_word_path, whose zip(path, w) is the same loop). -/
def _place_word_along_path (g : GridL) (word : List Char) (path : List (ℤ × ℤ)) : GridL :=
  (path.zip word).foldl (fun acc pc => setCell acc pc.1 pc.2) g

/-- Inner loop of _seed_word_path: grow the path by one random unused
neighbor per remaining character (the source's used set always equals the
set of path members). -/
def seedPathBuild (n : ℕ) : List Char → ℤ × ℤ → List (ℤ × ℤ) → Rng →
    Bool × List (ℤ × ℤ) × Rng
  | [], _, path, r => (true, path, r)
  | _ :: cs, cur, path, r =>
    let options := (_get_neighbors n cur.1 cur.2).filter fun q => ¬ q ∈ path
    if options = [] then (false, path, r)
    else
      let pick := r.choiceD options (0, 0)
      seedPathBuild n cs pick.1 (path ++ [pick.1]) pick.2

/-- Retry loop of BoardService._seed_word_path: up to max_retries attempts,
each from a fresh random start; the grid is written only on success. -/
def _seed_word_path_attempts (grid : GridL) (w : List Char) : ℕ → Rng → Bool × GridL × Rng
  | 0, r => (false, grid, r)
  | k + 1, r =>
    let n := grid.length
    let d1 := r.randrange n
    let d2 := d1.2.randrange n
    let start : ℤ × ℤ := ((d1.1 : ℤ), (d2.1 : ℤ))
    let built := seedPathBuild n w.tail start [start] d2.2
    if built.1 = true ∧ built.2.1.length = w.length then
      (true, _place_word_along_path grid w built.2.1, built.2.2)
    else _seed_word_path_attempts grid w k built.2.2

/-- BoardService._seed_word_path with its default max_retries = 50. -/
def _seed_word_path (grid : GridL) (word : String) (r : Rng) : Bool × GridL × Rng :=
  _seed_word_path_attempts grid word.toUpper.data 50 r

/-- Shared step condition of all four path strategies: next cell in bounds,
not yet on the path, and empty or already holding the required letter. -/
def cellOkFor (grid : GridL) (n : ℕ) (path : List (ℤ × ℤ)) (p : ℤ × ℤ) (c : Char) : Bool :=
  decide (0 ≤ p.1 ∧ p.1 < (n : ℤ) ∧ 0 ≤ p.2 ∧ p.2 < (n : ℤ)) &&
    decide (¬ p ∈ path) &&
    (getCell grid p == none || getCell grid p == some c)

/-- Straight-or-turn walk of _find_snake_path along one initial direction. -/
def snakeWalk (grid : GridL) (n : ℕ) : List Char → ℤ × ℤ → ℤ × ℤ →
    List (ℤ × ℤ) → Rng → List (ℤ × ℤ) × Rng
  | [], _, _, path, r => (path, r)
  | c :: cs, cur, d, path, r =>
    let nxt := (cur.1 + d.1, cur.2 + d.2)
    if cellOkFor grid n path nxt c then
      snakeWalk grid n cs nxt d (path ++ [nxt]) r
    else
      let turns := [(d.2, -d.1), (-d.2, d.1), (-d.1, -d.2), (d.1, d.2)]
      let (turns2, r2) := r.shuffle turns
      match turns2.find? fun t => cellOkFor grid n path (cur.1 + t.1, cur.2 + t.2) c with
      | some t =>
        snakeWalk grid n cs (cur.1 + t.1, cur.2 + t.2) t (path ++ [(cur.1 + t.1, cur.2 + t.2)]) r2
      | none => (path, r2)

/-- Outer loop of _find_snake_path over the shuffled starting directions. -/
def snakeTryDirs (grid : GridL) (n : ℕ) (w : List Char) (sr sc : ℤ) :
    List (ℤ × ℤ) → Rng → Option (List (ℤ × ℤ)) × Rng
  | [], r => (none, r)
  | d :: ds, r =>
    let (path, r2) := snakeWalk grid n w.tail (sr, sc) d [(sr, sc)] r
    if path.length = w.length then (some path, r2) else snakeTryDirs grid n w sr sc ds r2

/-- BoardService._find_snake_path. -/
def _find_snake_path (grid : GridL) (word : String) (sr sc : ℤ) (r : Rng) :
    Option (List (ℤ × ℤ)) × Rng :=
  let n := grid.length
  let w := word.toUpper.data
  let (ds, r2) := r.shuffle dirs8
  snakeTryDirs grid n w sr sc ds r2

/-- One leg of the L-shaped path: advance in a fixed direction while the
step condition holds. -/
def legWalk (grid : GridL) (n : ℕ) (d : ℤ × ℤ) : List Char → ℤ × ℤ →
    List (ℤ × ℤ) → (ℤ × ℤ) × List (ℤ × ℤ)
  | [], cur, path => (cur, path)
  | c :: cs, cur, path =>
    let nxt := (cur.1 + d.1, cur.2 + d.2)
    if cellOkFor grid n path nxt c then legWalk grid n d cs nxt (path ++ [nxt])
    else (cur, path)

/-- The four L-shape orientation variants of _find_l_shape_path. -/
def lshapeOrients : List ((ℤ × ℤ) × (ℤ × ℤ)) :=
  [((0, 1), (1, 0)), ((0, 1), (-1, 0)), ((1, 0), (0, 1)), ((1, 0), (0, -1))]

/-- Loop of _find_l_shape_path over the shuffled orientations: first half of
the word along one axis, second half along the other. -/
def lshapeTry (grid : GridL) (n : ℕ) (w : List Char) (sr sc : ℤ) :
    List ((ℤ × ℤ) × (ℤ × ℤ)) → Option (List (ℤ × ℤ))
  | [] => none
  | (d1, d2) :: rest =>
    let mid := w.length / 2
    let (cur1, path1) := legWalk grid n d1 ((w.drop 1).take mid) (sr, sc) [(sr, sc)]
    let path2 :=
      if path1.length = mid + 1 then (legWalk grid n d2 (w.drop (mid + 1)) cur1 path1).2
      else path1
    if path2.length = w.length then some path2 else lshapeTry grid n w sr sc rest

/-- BoardService._find_l_shape_path. -/
def _find_l_shape_path (grid : GridL) (word : String) (sr sc : ℤ) (r : Rng) :
    Option (List (ℤ × ℤ)) × Rng :=
  let n := grid.length
  let w := word.toUpper.data
  if w.length < 3 then (none, r)
  else
    let (os, r2) := r.shuffle lshapeOrients
    (lshapeTry grid n w sr sc os, r2)

/-- The four rotation sequences of _find_spiral_path. -/
def spiralDirections : List (List (ℤ × ℤ)) :=
  [[(0, 1), (1, 0), (0, -1), (-1, 0)],
   [(1, 0), (0, 1), (-1, 0), (0, -1)],
   [(0, -1), (-1, 0), (0, 1), (1, 0)],
   [(-1, 0), (0, -1), (1, 0), (0, 1)]]

/-- Walk of _find_spiral_path: step i uses direction (i-1) mod 4 of the
rotation sequence. -/
def spiralWalk (grid : GridL) (n : ℕ) (ds : List (ℤ × ℤ)) : List Char → ℕ →
    ℤ × ℤ → List (ℤ × ℤ) → List (ℤ × ℤ)
  | [], _, _, path => path
  | c :: cs, i, cur, path =>
    let d := ds.getD ((i - 1) % ds.length) (0, 0)
    let nxt := (cur.1 + d.1, cur.2 + d.2)
    if cellOkFor grid n path nxt c then spiralWalk grid n ds cs (i + 1) nxt (path ++ [nxt])
    else path

/-- Loop of _find_spiral_path over the shuffled rotation sequences. -/
def spiralTry (grid : GridL) (n : ℕ) (w : List Char) (sr sc : ℤ) :
    List (List (ℤ × ℤ)) → Option (List (ℤ × ℤ))
  | [] => none
  | ds :: rest =>
    let path := spiralWalk grid n ds w.tail 1 (sr, sc) [(sr, sc)]
    if path.length = w.length then some path else spiralTry grid n w sr sc rest

/-- BoardService._find_spiral_path. -/
def _find_spiral_path (grid : GridL) (word : String) (sr sc : ℤ) (r : Rng) :
    Option (List (ℤ × ℤ)) × Rng :=
  let n := grid.length
  let w := word.toUpper.data
  if w.length < 4 then (none, r)
  else
    let (ds, r2) := r.shuffle spiralDirections
    (spiralTry grid n w sr sc ds, r2)

/-- Walk of _find_random_walk_path: at each step take the first acceptable
direction of a freshly shuffled direction list. -/
def randomWalkSteps (grid : GridL) (n : ℕ) : List Char → ℤ × ℤ →
    List (ℤ × ℤ) → Rng → List (ℤ × ℤ) × Rng
  | [], _, path, r => (path, r)
  | c :: cs, cur, path, r =>
    let (ds, r2) := r.shuffle dirs8
    match ds.find? fun d => cellOkFor grid n path (cur.1 + d.1, cur.2 + d.2) c with
    | some d =>
      randomWalkSteps grid n cs (cur.1 + d.1, cur.2 + d.2) (path ++ [(cur.1 + d.1, cur.2 + d.2)]) r2
    | none => (path, r2)

/-- BoardService._find_random_walk_path. -/
def _find_random_walk_path (grid : GridL) (word : String) (sr sc : ℤ) (r : Rng) :
    Option (List (ℤ × ℤ)) × Rng :=
  let n := grid.length
  let w := word.toUpper.data
  let (path, r2) := randomWalkSteps grid n w.tail (sr, sc) [(sr, sc)] r
  (if path.length = w.length then some path else none, r2)

/-- The four path strategies of _find_word_path, as values so the strategy
list can be shuffled. -/
inductive PathStrategy where
  | snake
  | lshape
  | spiral
  | walk
deriving DecidableEq

/-- Dispatch one strategy. -/
def runStrategy (st : PathStrategy) (grid : GridL) (word : String) (sr sc : ℤ) (r : Rng) :
    Option (List (ℤ × ℤ)) × Rng :=
  match st with
  | .snake => _find_snake_path grid word sr sc r
  | .lshape => _find_l_shape_path grid word sr sc r
  | .spiral => _find_spiral_path grid word sr sc r
  | .walk => _find_random_walk_path grid word sr sc r

/-- The strategies list of _find_word_path, in source order. -/
def strategyList : List PathStrategy := [.snake, .lshape, .spiral, .walk]

/-- Loop of _find_word_path over the shuffled strategies: first full-length
path wins. -/
def tryStrategies (grid : GridL) (word : String) (sr sc : ℤ) :
    List PathStrategy → Rng → Option (List (ℤ × ℤ)) × Rng
  | [], r => (none, r)
  | st :: rest, r =>
    let (p?, r2) := runStrategy st grid word sr sc r
    match p? with
    | some p =>
      if p.length = word.toUpper.length then (some p, r2)
      else tryStrategies grid word sr sc rest r2
    | none => tryStrategies grid word sr sc rest r2

/-- BoardService._find_word_path. -/
def _find_word_path (grid : GridL) (word : String) (sr sc : ℤ) (r : Rng) :
    Option (List (ℤ × ℤ)) × Rng :=
  let (sts, r2) := r.shuffle strategyList
  tryStrategies grid word sr sc sts r2

/-- Attempt loop of _try_place_word_complex: up to max_attempts random start
positions, placing along the first path found. -/
def tryPlaceAttempts (grid : GridL) (word : String) : ℕ → Rng → Bool × GridL × Rng
  | 0, r => (false, grid, r)
  | k + 1, r =>
    let n := grid.length
    let (sr, r1) := r.randrange n
    let (sc, r2) := r1.randrange n
    let (p?, r3) := _find_word_path grid word (sr : ℤ) (sc : ℤ) r2
    match p? with
    | some p => (true, _place_word_along_path grid word.toUpper.data p, r3)
    | none => tryPlaceAttempts grid word k r3

/-- BoardService._try_place_word_complex with its default max_attempts = 200. -/
def _try_place_word_complex (grid : GridL) (word : String) (r : Rng) : Bool × GridL × Rng :=
  tryPlaceAttempts grid word 200 r

/-- Sequential placement pass shared by _generate_board_from_word_list and
its retry variant; also returns how many words were placed. -/
def placeWordsSeq : List String → GridL → Rng → GridL × ℕ × Rng
  | [], g, r => (g, 0, r)
  | w :: ws, g, r =>
    let (ok, g2, r2) := _try_place_word_complex g w r
    let (g3, cnt, r3) := placeWordsSeq ws g2 r2
    (g3, if ok then cnt + 1 else cnt, r3)

/-- Fill one row's empty cells from the frequency table. -/
def fillRow : List Cell → Rng → List Cell × Rng
  | [], r => ([], r)
  | none :: cs, r =>
    let (ch, r2) := _generate_random_letter r
    let (rest, r3) := fillRow cs r2
    (some ch :: rest, r3)
  | some ch :: cs, r =>
    let (rest, r2) := fillRow cs r
    (some ch :: rest, r2)

/-- Fill every remaining empty cell of the grid, row-major, as the
generators do after placement. -/
def fillEmptyCells : GridL → Rng → GridL × Rng
  | [], r => ([], r)
  | row :: rows, r =>
    let (row2, r2) := fillRow row r
    let (rows2, r3) := fillEmptyCells rows r2
    (row2 :: rows2, r3)

/-- Empty board of the placement generators. -/
def emptyGrid (n : ℕ) : GridL := List.replicate n (List.replicate n none)

/-- One freshly generated random row. -/
def genRowAux : ℕ → Rng → List Cell × Rng
  | 0, r => ([], r)
  | k + 1, r =>
    let (c, r2) := _generate_random_letter r
    let (rest, r3) := genRowAux k r2
    (some c :: rest, r3)

/-- Row-major random grid generation. -/
def genGridAux : ℕ → ℕ → Rng → GridL × Rng
  | 0, _, r => ([], r)
  | k + 1, n, r =>
    let (row, r2) := genRowAux n r
    let (rest, r3) := genGridAux k n r2
    (row :: rest, r3)

/-- BoardService._generate_board: an n-by-n grid of weighted random letters. -/
def _generate_board (n : ℕ) (r : Rng) : GridL × Rng := genGridAux n n r

/-- BoardService._generate_board_from_word_list: place longest-first, then
fill the leftover cells randomly. -/
def _generate_board_from_word_list (board_size : ℕ) (words : List String) (r : Rng) :
    GridL × Rng :=
  let (g2, _, r2) := placeWordsSeq (sortByLenDesc words) (emptyGrid board_size) r
  fillEmptyCells g2 r2

/-- Retry loop of _generate_board_from_word_list_with_retry: repeat the whole
placement pass, return immediately once every word is placed, otherwise keep
the attempt that placed the most words (strictly more than the best so far),
and fall back to a fully random board when no attempt placed any word. -/
def genFromListRetryAux (board_size : ℕ) (words : List String) :
    ℕ → Option (GridL × ℕ) → Rng → GridL × Rng
  | 0, best, r =>
    match best with
    | some (bg, _) => fillEmptyCells bg r
    | none => _generate_board board_size r
  | k + 1, best, r =>
    let (g2, cnt, r2) := placeWordsSeq (sortByLenDesc words) (emptyGrid board_size) r
    if cnt = words.length then fillEmptyCells g2 r2
    else
      let best2 :=
        match best with
        | some (_, bc) => if bc < cnt then some (g2, cnt) else best
        | none => if 0 < cnt then some (g2, cnt) else none
      genFromListRetryAux board_size words k best2 r2

/-- BoardService._generate_board_from_word_list_with_retry with its default
max_attempts = 50. -/
def _generate_board_from_word_list_with_retry (board_size : ℕ) (words : List String) (r : Rng) :
    GridL × Rng :=
  genFromListRetryAux board_size words 50 none r

/-- BoardGenerationRequest of app/dto/board.py (validated bounds: board_size
3..10, target_richness in [0,1], min_word_length 3..15, min_word_count >= 0). -/
structure BoardGenerationRequest where
  board_size : ℕ
  target_richness : ℚ
  min_word_length : ℕ
  min_word_count : ℕ
deriving DecidableEq

/-- BoardGenerationResponse of app/dto/board.py. -/
structure BoardGenerationResponse where
  grid : GridL
  richness : ℚ
  words : List String
deriving DecidableEq

instance : Inhabited BoardGenerationResponse := ⟨⟨[], 0, []⟩⟩

/-- The service's shared state once loading completed: the dictionary word
set, the trie root (None before loading) and the loaded flag, plus the
PRNG-family map from a seed to its stream (random.Random(seed)). -/
structure BoardServiceEnv where
  dictionary : List String
  trie_root : Option TrieNode
  is_loaded : Bool
  seedStream : ℤ → ℕ → ℕ

/-- random.Random(seed): the seeded deterministic source. -/
def mkSeededRng (svc : BoardServiceEnv) (seed : ℤ) : Rng :=
  ⟨svc.seedStream seed, 0⟩

/-- candidate_long_words of _do_generate_board: the sorted dictionary words
of at least the requested length. -/
def candidateLongWords (svc : BoardServiceEnv) (min_word_length : ℕ) : List String :=
  sortWords (svc.dictionary.filter fun w => min_word_length ≤ w.length)

/-- One loop body of _do_generate_board: a fresh random grid, optional
long-word seeding for high richness targets, then search and scoring. -/
def gen_attempt (svc : BoardServiceEnv) (req : BoardGenerationRequest) (r : Rng) :
    BoardGenerationResponse × Rng :=
  let gen := _generate_board req.board_size r
  let cands := candidateLongWords svc req.min_word_length
  let seeded :=
    if (1/2 : ℚ) < req.target_richness ∧ cands ≠ [] then
      let pick := gen.2.choiceD cands ""
      let sown := _seed_word_path gen.1 pick.1 pick.2
      (sown.2.1, sown.2.2)
    else gen
  let words := sortWords (find_words svc.trie_root seeded.1 req.min_word_length)
  (⟨seeded.1, _compute_richness words req.board_size, words⟩, seeded.2)

/-- Attempt loop of _do_generate_board: accept the first attempt meeting the
word-count bound within tolerance 0.05 of the target; otherwise remember the
first best-scoring attempt among those meeting the bound (best = None models
best_score_diff = inf); the last generated attempt is the final fallback. -/
def gen_loop (svc : BoardServiceEnv) (req : BoardGenerationRequest) :
    ℕ → Rng → Option (BoardGenerationResponse × ℚ) → BoardGenerationResponse →
    BoardGenerationResponse
  | 0, _, best, last =>
    match best with
    | some (b, _) => b
    | none => last
  | k + 1, r, best, _last =>
    let att := gen_attempt svc req r
    let resp := att.1
    if resp.words.length < req.min_word_count then gen_loop svc req k att.2 best resp
    else
      let sd := |resp.richness - req.target_richness|
      if sd ≤ 1/20 then resp
      else
        match best with
        | none => gen_loop svc req k att.2 (some (resp, sd)) resp
        | some (bb, bd) =>
          if sd < bd then gen_loop svc req k att.2 (some (resp, sd)) resp
          else gen_loop svc req k att.2 (some (bb, bd)) resp

/-- BoardService._do_generate_board: a throwaway initial generation fills the
fallback variables, then the 200-attempt loop runs. -/
def _do_generate_board (svc : BoardServiceEnv) (req : BoardGenerationRequest) (r : Rng) :
    BoardGenerationResponse :=
  let ini := gen_attempt svc req r
  gen_loop svc req 200 ini.2 none ini.1

/-- The sequence of attempts a run of the loop would generate: the selection
logic consumes no randomness, so the loop is equivalent to selecting over
this pregenerated list (proved below as the bridge lemma). -/
def attempt_list (svc : BoardServiceEnv) (req : BoardGenerationRequest) :
    ℕ → Rng → List BoardGenerationResponse
  | 0, _ => []
  | k + 1, r =>
    let att := gen_attempt svc req r
    att.1 :: attempt_list svc req k att.2

/-- Selection logic of the attempt loop over an explicit attempt list,
separated from randomness for the correctness proofs. -/
def generation_select (minCount : ℕ) (target : ℚ) :
    List BoardGenerationResponse → Option (BoardGenerationResponse × ℚ) →
    BoardGenerationResponse → BoardGenerationResponse
  | [], best, last =>
    match best with
    | some (b, _) => b
    | none => last
  | resp :: rest, best, _last =>
    if resp.words.length < minCount then generation_select minCount target rest best resp
    else
      let sd := |resp.richness - target|
      if sd ≤ 1/20 then resp
      else
        match best with
        | none => generation_select minCount target rest (some (resp, sd)) resp
        | some (bb, bd) =>
          if sd < bd then generation_select minCount target rest (some (resp, sd)) resp
          else generation_select minCount target rest (some (bb, bd)) resp

/-- The unified cache's two value shapes: a single board (generate_board) or
a batch (generate_multiple_boards). -/
inductive CacheItem where
  | single (resp : BoardGenerationResponse)
  | multiple (resps : List BoardGenerationResponse)
deriving DecidableEq

/-- BoardService.generate_board: without a seed, generate fresh and bypass
the cache; with a seed, consult the cache (which promotes on hit), return a
cached single board, and otherwise compute with random.Random(seed) and
cache the result. -/
def generate_board (svc : BoardServiceEnv) (req : BoardGenerationRequest)
    (seed : Option ℤ) (fresh : Rng) (cache : List (ℤ × CacheItem)) :
    BoardGenerationResponse × List (ℤ × CacheItem) :=
  match seed with
  | none => (_do_generate_board svc req fresh, cache)
  | some s =>
    let got := _get_from_cache cache s
    match got.1 with
    | some (.single respC) => (respC, got.2)
    | _ =>
      let resp := _do_generate_board svc req (mkSeededRng svc s)
      (resp, _put_in_cache got.2 s (.single resp))

/-- Modelled from the spec: WordBasedBoardGenerationRequest is imported from
app/dto/board.py by the service but its class definition is not among the
staged sources; fields follow spec section 3 (WordPlacementRequest: board
size, non-empty candidate word list, minimum word length, exhaustive
placement flag) and the service's uses of the object. -/
structure WordBasedBoardGenerationRequest where
  board_size : ℕ
  words : List String
  min_word_length : ℕ
  try_place_all_words : Bool

/-- The filter of generate_board_from_words: keep words whose trimmed length
meets the bound, as their upper-cased trimmed forms. -/
def filteredWords (req : WordBasedBoardGenerationRequest) : List String :=
  req.words.filterMap fun w =>
    if req.min_word_length ≤ w.trim.length then some (w.toUpper.trim) else none

/-- Placement call shared by the main path and the collision retries. -/
def placeForRequest (req : WordBasedBoardGenerationRequest) (valid : List String) (r : Rng) :
    GridL × Rng :=
  if req.try_place_all_words then
    _generate_board_from_word_list_with_retry req.board_size valid r
  else _generate_board_from_word_list req.board_size valid r

/-- Collision retry of generate_board_from_words: while some discovered word
is outside the input set, regenerate, up to 10 times, then accept as-is. -/
def collisionRetry (req : WordBasedBoardGenerationRequest) (valid : List String) :
    ℕ → GridL → List String → Rng → GridL × List String × Rng
  | 0, g, found, r => (g, found, r)
  | k + 1, g, found, r =>
    if (found.filter fun w => ¬ w ∈ valid) = [] then (g, found, r)
    else
      let placed := placeForRequest req valid r
      let found2 := sortWords (_find_words_from_list placed.1 valid req.min_word_length)
      collisionRetry req valid k placed.1 found2 placed.2

/-- BoardService.generate_board_from_words: filter the input words, fail with
the NoValidWords error when none remain, otherwise place, search (against the
input list only), retry on unintended words, and score. -/
def generate_board_from_words (req : WordBasedBoardGenerationRequest) (r : Rng) :
    Except String BoardGenerationResponse :=
  let valid := filteredWords req
  if valid = [] then Except.error "No valid words found with minimum length"
  else
    let placed := placeForRequest req valid r
    let found := sortWords (_find_words_from_list placed.1 valid req.min_word_length)
    let retried := collisionRetry req valid 10 placed.1 found placed.2
    Except.ok ⟨retried.1, _compute_richness retried.2.1 req.board_size, retried.2.1⟩

/-- MoveValidationRequest of app/dto/board.py: the boundary layer has already
validated the path (in bounds, adjacent, distinct, length 3..16). -/
structure MoveValidationRequest where
  grid : GridL
  move_coordinates : List (ℤ × ℤ)
  min_word_length : ℕ

/-- MoveValidationResponse of app/dto/board.py: is_valid, word and score,
where score is declared as a required field with no default (line 84). -/
structure MoveValidationResponse where
  is_valid : Bool
  word : String
  score : ℤ
deriving DecidableEq

/-- Pydantic construction of MoveValidationResponse: score is required, so
constructing the model without passing it (as validate_move does) raises a
ValidationError instead of returning a response. -/
def mkMoveValidationResponse (valid : Bool) (word : String) (score : Option ℤ) :
    Except String MoveValidationResponse :=
  match score with
  | some s => Except.ok ⟨valid, word, s⟩
  | none => Except.error "ValidationError: Field required: score"

/-- BoardService.validate_move: join the letters at the path coordinates,
upper-case, short-circuit below the length bound, otherwise test dictionary
membership; every branch builds the response without a score. -/
def validate_move (svc : BoardServiceEnv) (req : MoveValidationRequest) :
    Except String MoveValidationResponse :=
  if svc.is_loaded = false then Except.error "Dictionary not loaded"
  else
    let word : String :=
      ⟨((req.move_coordinates.map fun p => cellChars (getCell req.grid p)).flatten).map Char.toUpper⟩
    if word.length < req.min_word_length then mkMoveValidationResponse false word none
    else mkMoveValidationResponse (_is_word svc.trie_root word.data) word none

/-- Wordlist content of the repository's test fixture: a version-1 header
followed by 12 distinct valid words. -/
def exampleContent : String :=
  "version: 1\nCAT\nDOG\nBAT\nRAT\nCAR\nBAR\nTAR\nART\nACT\nCOAT\nBOAT\nGOAT\n"

/-- The word set that fixture yields. -/
def exampleWords : List String :=
  ["CAT", "DOG", "BAT", "RAT", "CAR", "BAR", "TAR", "ART", "ACT", "COAT", "BOAT", "GOAT"]

/-- Cache obtained by inserting 31 distinct seeds 0..30 into an empty cache. -/
def cache31 : List (ℤ × ℕ) :=
  (List.range 31).foldl (fun c i => _put_in_cache c ((i : ℕ) : ℤ) i) []

/-- A loaded service over a one-word dictionary, for the concrete move
validation scenario. -/
def svcCat : BoardServiceEnv :=
  ⟨["CAT"], some (_build_trie ["CAT"]), true, fun _ _ => 0⟩

/-- The move validation scenario of the spec: grid [[C,A,T],[D,O,G],[B,A,T]],
path along the top row, minimum length 3. -/
def catMoveReq : MoveValidationRequest :=
  ⟨[[some 'C', some 'A', some 'T'],
    [some 'D', some 'O', some 'G'],
    [some 'B', some 'A', some 'T']],
   [(0, 0), (0, 1), (0, 2)], 3⟩

/-- A loaded service over an empty dictionary with the constant-zero stream
family (one particular deterministic random source). -/
def svcEmpty : BoardServiceEnv :=
  ⟨[], some (_build_trie []), true, fun _ _ => 0⟩

/-- Generation request for a 3-by-3 board with target richness 0,
minimum word length 3, minimum word count 0. -/
def reqSize3 : BoardGenerationRequest := ⟨3, 0, 3, 0⟩

/-- Generation request identical to reqSize3 but for a 4-by-4 board. -/
def reqSize4 : BoardGenerationRequest := ⟨4, 0, 3, 0⟩

/-- The constant-zero unseeded source (its value is irrelevant to the seeded
calls it is passed to). -/
def rngZero : Rng := ⟨fun _ => 0, 0⟩

/-- Cache state after generate_board(reqSize3, seed=7) on an empty cache. -/
def cacheAfter3 : List (ℤ × CacheItem) :=
  (generate_board svcEmpty reqSize3 (some 7) rngZero []).2

/-- Result of generate_board(reqSize4, seed=7) invoked after the reqSize3
call polluted the seed-keyed cache. -/
def pollutedResult4 : BoardGenerationResponse :=
  (generate_board svcEmpty reqSize4 (some 7) rngZero cacheAfter3).1

/-- Result of generate_board(reqSize4, seed=7) invoked on a fresh (empty)
cache. -/
def freshResult4 : BoardGenerationResponse :=
  (generate_board svcEmpty reqSize4 (some 7) rngZero []).1

/-- The attempt sequence one run of _do_generate_board draws: the throwaway
initial generation advances the source, then 200 loop attempts follow. -/
def do_attempts (svc : BoardServiceEnv) (req : BoardGenerationRequest) (r : Rng) :
    List BoardGenerationResponse :=
  attempt_list svc req 200 (gen_attempt svc req r).2

/-- An attempt meets the request's minimum word count (the negation of the
loop's continue condition). -/
def meets_min_count (req : BoardGenerationRequest) (b : BoardGenerationResponse) : Prop :=
  req.min_word_count ≤ b.words.length

instance (req : BoardGenerationRequest) (b : BoardGenerationResponse) :
    Decidable (meets_min_count req b) := by
  unfold meets_min_count; infer_instance

/-- Absolute distance of an attempt's richness from the request's target. -/
def target_gap (req : BoardGenerationRequest) (b : BoardGenerationResponse) : ℚ :=
  |b.richness - req.target_richness|

/-- An attempt's richness lies within the acceptance tolerance 0.05 of the
target. -/
def within_tolerance (req : BoardGenerationRequest) (b : BoardGenerationResponse) : Prop :=
  target_gap req b ≤ 1/20

instance (req : BoardGenerationRequest) (b : BoardGenerationResponse) :
    Decidable (within_tolerance req b) := by
  unfold within_tolerance; infer_instance

/-- Word-placement request for the concrete single-word scenario. -/
def reqC4 : WordBasedBoardGenerationRequest := ⟨3, ["CAT"], 3, false⟩

/-- The board result of that scenario under the constant-zero stream. -/
def respC4 : BoardGenerationResponse :=
  (generate_board_from_words reqC4 rngZero).toOption.getD default

instance (n : ℕ) (g : GridL) : Decidable (squareGrid n g) := by
  unfold squareGrid; infer_instance

theorem addWord_mem (w x : String) (acc : List String) :
    w ∈ addWord acc x ↔ w ∈ acc ∨ w = x := by
  unfold addWord
  by_cases h : x ∈ acc
  · rw [if_pos h]
    constructor
    · exact Or.inl
    · rintro (h1 | rfl)
      · exact h1
      · exact h
  · rw [if_neg h]
    simp

theorem foldl_addWord_mem (w : String) (l : List String) : ∀ acc : List String,
    w ∈ l.foldl addWord acc ↔ w ∈ acc ∨ w ∈ l := by
  induction l with
  | nil => simp
  | cons x xs ih =>
    intro acc
    simp only [List.foldl_cons]
    rw [ih, addWord_mem]
    simp [List.mem_cons]
    tauto

theorem sortWords_mem (w : String) (l : List String) : w ∈ sortWords l ↔ w ∈ l := by
  have step : ∀ (v : String) (m : List String), w ∈ insertAsc v m ↔ w = v ∨ w ∈ m := by
    intro v m
    induction m with
    | nil => simp [insertAsc]
    | cons y ys ihm =>
      by_cases h : strLeb v y = true
      · simp [insertAsc, h]
      · simp only [insertAsc, if_neg h, List.mem_cons, ihm]
        tauto
  induction l with
  | nil => simp [sortWords]
  | cons x xs ih =>
    simp only [sortWords, List.foldr_cons] at *
    rw [step]
    simp only [List.mem_cons, ih]

/-- Claim C9: for every string w and every loaded dictionary, isWord(w) = true
implies isPrefix(w) = true: the word test is the prefix descent plus the
terminal flag, so a successful word test means the descent succeeded. -/
theorem C9_is_word_implies_pref (root : Option TrieNode) (w : String)
    (h : _is_word root w.data = true) : _is_pref root w.data = true := by
  cases root with
  | none => simp [_is_word] at h
  | some t =>
    simp only [_is_word] at h
    simp only [_is_pref]
    cases hd : trieDescend t w.data with
    | none => rw [hd] at h; exact absurd h (by simp)
    | some nd => simp [hd]

theorem C9_witness : _is_pref (some (_build_trie ["CAT"])) ("CAT" : String).data = true :=
  C9_is_word_implies_pref (some (_build_trie ["CAT"])) "CAT" (by decide)

/-- Claim C2, counterexample: on the odd board size 3 with three 3-letter
words, the code's richness (which divides by int(N * N * 0.5) = 4) differs
from the spec's formula dividing by N * N * 0.5 = 4.5: the code yields 7/10,
the formula 19/30. -/
theorem C2_counterexample :
    _compute_richness ["CAT", "DOG", "BAT"] 3 ≠
      (8/10 : ℚ) * min ((3 : ℚ) / ((3 * 3 : ℚ) * (1/2))) 1 +
      (2/10 : ℚ) * min (((3 * 3 : ℚ) / 3) / ((min (3 * 2) 15 : ℕ) : ℚ)) 1 := by
  with_unfolding_all decide

/-- Claim C2 as amended: the count divisor is the truncation of N²·0.5 to an
integer (int() in the source), i.e. the floor N²/2; the rest of the formula
is as the spec states it, and the empty word list scores 0. -/
theorem C2_richness_formula (ws : List String) (N : ℕ) (hne : ws ≠ []) :
    _compute_richness ws N =
      (8/10 : ℚ) * min ((ws.length : ℚ) / ((⌊((N * N : ℕ) : ℚ) * (1/2)⌋₊ : ℕ) : ℚ)) 1 +
      (2/10 : ℚ) *
        min ((((ws.map String.length).sum : ℕ) : ℚ) / (ws.length : ℚ) /
          ((min (N * 2) 15 : ℕ) : ℚ)) 1 ∧
    _compute_richness [] N = 0 := by
  constructor
  · have h2 : ((N * N : ℕ) : ℚ) * (1/2) = ((N * N : ℕ) : ℚ) / ((2 : ℕ) : ℚ) := by
      push_cast
      ring
    have hfl : (⌊((N * N : ℕ) : ℚ) * (1/2)⌋₊ : ℕ) = N * N / 2 := by
      rw [h2, Nat.floor_div_nat, Nat.floor_natCast]
    rw [hfl]
    simp only [_compute_richness, if_neg hne]
    ring
  · simp [_compute_richness]

theorem C2_witness : _compute_richness [] 3 = 0 :=
  (C2_richness_formula ["CAT"] 3 (by decide)).2

set_option maxRecDepth 100000 in
/-- Claim C7: loading fails with the not-found error when the source is
absent; otherwise the version is the integer after the colon of the first
line, and the word set is exactly the trimmed upper-cased non-blank
subsequent lines of trimmed length at least 3, duplicates collapsed; on the
concrete fixture (version 1 plus 12 distinct valid words) it yields version 1
and 12 words. -/
theorem C7_load_dictionary_spec (content first a b : String) (rest tl : List String)
    (v : ℤ) (h1 : splitlines content = first :: rest)
    (h2 : first.splitOn ":" = a :: b :: tl) (h3 : b.trim.toInt? = some v) :
    _load_dictionary none = Except.error DictErr.notFound ∧
    _load_dictionary (some content) = Except.ok (v, dictWords rest) ∧
    (∀ w, w ∈ dictWords rest ↔
      ∃ line ∈ rest, line.trim ≠ "" ∧ 3 ≤ line.trim.length ∧ w = line.trim.toUpper) ∧
    _load_dictionary (some exampleContent) = Except.ok (1, exampleWords) ∧
    exampleWords.length = 12 := by
  refine ⟨rfl, ?_, ?_, ?ex, rfl⟩
  case ex => with_unfolding_all rfl
  · simp only [_load_dictionary, h1, h2, h3]
  · intro w
    unfold dictWords
    rw [foldl_addWord_mem]
    simp only [List.mem_filterMap, List.not_mem_nil, false_or, lineWord]
    constructor
    · rintro ⟨line, hline, hsome⟩
      by_cases hc : line.trim ≠ "" ∧ 3 ≤ line.trim.length
      · rw [if_pos hc] at hsome
        exact ⟨line, hline, hc.1, hc.2, (Option.some.injEq _ _ ▸ hsome).symm⟩
      · rw [if_neg hc] at hsome
        exact absurd hsome (by simp)
    · rintro ⟨line, hline, hne, hlen, rfl⟩
      exact ⟨line, hline, by rw [if_pos ⟨hne, hlen⟩]⟩

set_option maxRecDepth 100000 in
theorem C7_witness : exampleWords.length = 12 :=
  (C7_load_dictionary_spec exampleContent "version: 1" "version" " 1"
    ["CAT", "DOG", "BAT", "RAT", "CAR", "BAR", "TAR", "ART", "ACT", "COAT", "BOAT", "GOAT", ""]
    [] 1 (by with_unfolding_all rfl) (by with_unfolding_all rfl)
    (by with_unfolding_all rfl)).2.2.2.2

/-- Claim C1 (code bug): on the spec's own scenario the word is built
correctly ("CAT") and the dictionary test succeeds, but validate_move then
constructs MoveValidationResponse without the required score field, so the
call raises a ValidationError instead of returning the response the claim
(and the repository's tests) describe. -/
theorem C1_validate_move_missing_score :
    validate_move svcCat catMoveReq = Except.error "ValidationError: Field required: score" ∧
    _is_word svcCat.trie_root ("CAT" : String).data = true ∧
    (⟨((catMoveReq.move_coordinates.map fun p =>
        cellChars (getCell catMoveReq.grid p)).flatten).map Char.toUpper⟩ : String) = "CAT" := by
  refine ⟨by with_unfolding_all rfl, by decide, by decide⟩

/-- Claim C5: the cache never exceeds 30 entries after a put; a hit promotes
the entry to the most-recently-used end; inserting the 31 distinct seeds
0..30 leaves 30 entries with seed 0 (never re-read) evicted and seeds 1..30
present. -/
theorem C5_cache_lru :
    (∀ (α : Type) (c : List (ℤ × α)) (s : ℤ) (v : α),
      (_put_in_cache c s v).length ≤ _max_cache_size) ∧
    (∀ (α : Type) (c : List (ℤ × α)) (s : ℤ) (v : α), lookupCache c s = some v →
      (_get_from_cache c s).2.getLast? = some (s, v)) ∧
    cache31.length = 30 ∧ lookupCache cache31 0 = none ∧
    (∀ k ∈ List.range 30, lookupCache cache31 ((k : ℕ) + 1 : ℤ) = some (k + 1)) := by
  refine ⟨?_, ?_, by decide, by decide, by decide⟩
  · intro α c s v
    unfold _put_in_cache _manage_cache_size
    rw [List.length_drop]
    unfold _max_cache_size
    omega
  · intro α c s v h
    simp only [_get_from_cache, h]
    rw [List.getLast?_concat]

theorem foldl_pres {β : Type} (P : String → Prop) (f : List String → β → List String)
    (hf : ∀ acc b, ∀ w ∈ f acc b, w ∈ acc ∨ P w) :
    ∀ (l : List β) (acc : List String), ∀ w ∈ l.foldl f acc, w ∈ acc ∨ P w := by
  intro l
  induction l with
  | nil => intro acc w hw; exact Or.inl hw
  | cons b bs ih =>
    intro acc w hw
    rcases ih (f acc b) w hw with h | h
    · exact hf acc b w h
    · exact Or.inr h

theorem dfs_from_list_subset (word_set : List String) : ∀ (fuel : ℕ) (grid : GridL)
    (x y : ℤ) (visited : List (ℤ × ℤ)) (pre : String) (results : List String)
    (min_length : ℕ) (w : String),
    w ∈ _dfs_find_words_from_list word_set fuel grid x y visited pre results min_length →
    w ∈ results ∨ w ∈ word_set := by
  intro fuel
  induction fuel with
  | zero =>
    intro grid x y visited pre results min_length w hw
    simp only [_dfs_find_words_from_list] at hw
    exact Or.inl hw
  | succ fuel ih =>
    intro grid x y visited pre results min_length w hw
    simp only [_dfs_find_words_from_list] at hw
    by_cases hpf :
        (word_set.any fun v => (pre ++ ⟨cellChars (getCell grid (x, y))⟩).isPrefixOf v) = false
    · rw [if_pos hpf] at hw
      exact Or.inl hw
    · rw [if_neg hpf] at hw
      have hstep : ∀ (acc : List String) (p : ℤ × ℤ),
          ∀ v ∈ (if p ∈ visited then acc
            else _dfs_find_words_from_list word_set fuel grid p.1 p.2 (p :: visited)
              (pre ++ ⟨cellChars (getCell grid (x, y))⟩) acc min_length),
          v ∈ acc ∨ v ∈ word_set := by
        intro acc p v hv
        by_cases hp : p ∈ visited
        · rw [if_pos hp] at hv
          exact Or.inl hv
        · rw [if_neg hp] at hv
          exact ih grid p.1 p.2 (p :: visited) _ acc min_length v hv
      rcases foldl_pres (· ∈ word_set) _ hstep _ _ w hw with h | h
      · by_cases hc : min_length ≤ (pre ++ ⟨cellChars (getCell grid (x, y))⟩).length ∧
            (pre ++ ⟨cellChars (getCell grid (x, y))⟩) ∈ word_set
        · rw [if_pos hc] at h
          rcases (addWord_mem w _ results).mp h with h2 | h2
          · exact Or.inl h2
          · subst h2
            exact Or.inr hc.2
        · rw [if_neg hc] at h
          exact Or.inl h
      · exact Or.inr h

theorem find_words_from_list_subset (grid : GridL) (word_list : List String)
    (min_length : ℕ) (w : String)
    (hw : w ∈ _find_words_from_list grid word_list min_length) : w ∈ word_list := by
  simp only [_find_words_from_list] at hw
  have houter : ∀ (acc : List String) (i : ℕ),
      ∀ v ∈ (List.range grid.length).foldl
        (fun acc2 (j : ℕ) => _dfs_find_words_from_list word_list (grid.length * grid.length)
          grid (i : ℤ) (j : ℤ) [((i : ℤ), (j : ℤ))] "" acc2 min_length) acc,
      v ∈ acc ∨ v ∈ word_list := by
    intro acc i v hv
    exact foldl_pres (· ∈ word_list)
      (fun acc2 (j : ℕ) => _dfs_find_words_from_list word_list (grid.length * grid.length)
        grid (i : ℤ) (j : ℤ) [((i : ℤ), (j : ℤ))] "" acc2 min_length)
      (fun acc2 j u hu => dfs_from_list_subset word_list _ grid _ _ _ _ acc2 _ u hu)
      (List.range grid.length) acc v hv
  rcases foldl_pres (· ∈ word_list) _ houter (List.range grid.length) [] w hw with h | h
  · exact absurd h (List.not_mem_nil w)
  · exact h

theorem collisionRetry_words_subset (req : WordBasedBoardGenerationRequest)
    (valid : List String) : ∀ (fuel : ℕ) (g : GridL) (found : List String) (r : Rng),
    (∀ w ∈ found, w ∈ valid) →
    ∀ w ∈ (collisionRetry req valid fuel g found r).2.1, w ∈ valid := by
  intro fuel
  induction fuel with
  | zero =>
    intro g found r hfound w hw
    simp only [collisionRetry] at hw
    exact hfound w hw
  | succ fuel ih =>
    intro g found r hfound w hw
    simp only [collisionRetry] at hw
    by_cases hinv : (found.filter fun v => ¬ v ∈ valid) = []
    · rw [if_pos hinv] at hw
      exact hfound w hw
    · rw [if_neg hinv] at hw
      refine ih _ _ _ ?_ w hw
      intro v hv
      rw [sortWords_mem] at hv
      exact find_words_from_list_subset _ valid req.min_word_length v hv

/-- Claim C4: every word in a result of generate_board_from_words belongs to
the upper-cased, trimmed, minimum-length-filtered input word set, for every
request and random source, across all internal regeneration retries: the
list-filtered search only ever records members of the input set. -/
theorem C4_words_from_input (req : WordBasedBoardGenerationRequest) (r : Rng)
    (resp : BoardGenerationResponse)
    (h : generate_board_from_words req r = Except.ok resp) :
    ∀ w ∈ resp.words, w ∈ filteredWords req := by
  unfold generate_board_from_words at h
  by_cases hv : filteredWords req = []
  · rw [if_pos hv] at h
    exact Except.noConfusion h
  · rw [if_neg hv] at h
    injection h with h2
    subst h2
    intro w hw
    refine collisionRetry_words_subset req (filteredWords req) 10 _ _ _ ?_ w hw
    intro v hv2
    rw [sortWords_mem] at hv2
    exact find_words_from_list_subset _ _ req.min_word_length v hv2

set_option maxRecDepth 100000 in
theorem C4_witness :
    (respC4.words.all fun w => decide (w ∈ filteredWords reqC4)) = true := by
  have h : generate_board_from_words reqC4 rngZero = Except.ok respC4 := by
    with_unfolding_all rfl
  have h2 := C4_words_from_input reqC4 rngZero respC4 h
  rw [List.all_eq_true]
  intro x hx
  exact decide_eq_true (h2 x hx)

/-- Claim C8: generate_board_from_words fails with the NoValidWords error
exactly when upper-casing, trimming and min-length filtering leaves no input
words; when at least one word survives, it returns a board result without
raising (everything after the filter check is total). -/
theorem C8_no_valid_words (req : WordBasedBoardGenerationRequest) (r : Rng) :
    ((∃ e, generate_board_from_words req r = Except.error e) ↔ filteredWords req = []) ∧
    (filteredWords req ≠ [] → ∃ resp, generate_board_from_words req r = Except.ok resp) := by
  by_cases h : filteredWords req = []
  · constructor
    · constructor
      · intro _
        exact h
      · intro _
        refine ⟨"No valid words found with minimum length", ?_⟩
        simp only [generate_board_from_words, if_pos h]
    · intro hne
      exact absurd h hne
  · constructor
    · constructor
      · rintro ⟨e, he⟩
        simp only [generate_board_from_words, if_neg h] at he
        exact Except.noConfusion he
      · intro h2
        exact absurd h2 h
    · intro _
      simp only [generate_board_from_words, if_neg h]
      exact ⟨_, rfl⟩

set_option maxRecDepth 100000 in
theorem C8_witness :
    ∃ e, generate_board_from_words ⟨3, ["AB", "  "], 3, false⟩ rngZero = Except.error e :=
  (C8_no_valid_words ⟨3, ["AB", "  "], 3, false⟩ rngZero).1.mpr (by with_unfolding_all rfl)

theorem attempt_list_length (svc : BoardServiceEnv) (req : BoardGenerationRequest) :
    ∀ (k : ℕ) (r : Rng), (attempt_list svc req k r).length = k := by
  intro k
  induction k with
  | zero => intro r; rfl
  | succ k ih =>
    intro r
    simp only [attempt_list, List.length_cons, ih]

theorem gen_loop_eq_select (svc : BoardServiceEnv) (req : BoardGenerationRequest) :
    ∀ (k : ℕ) (r : Rng) (best : Option (BoardGenerationResponse × ℚ))
      (last : BoardGenerationResponse),
      gen_loop svc req k r best last =
        generation_select req.min_word_count req.target_richness
          (attempt_list svc req k r) best last := by
  intro k
  induction k with
  | zero =>
    intro r best last
    rfl
  | succ k ih =>
    intro r best last
    simp only [gen_loop, attempt_list, generation_select]
    by_cases h1 : (gen_attempt svc req r).1.words.length < req.min_word_count
    · rw [if_pos h1, if_pos h1, ih]
    · rw [if_neg h1, if_neg h1]
      by_cases h2 : |(gen_attempt svc req r).1.richness - req.target_richness| ≤ 1/20
      · rw [if_pos h2, if_pos h2]
      · rw [if_neg h2, if_neg h2]
        cases best with
        | none => exact ih _ _ _
        | some p =>
          obtain ⟨bb, bd⟩ := p
          dsimp only
          by_cases h3 : |(gen_attempt svc req r).1.richness - req.target_richness| < bd
          · rw [if_pos h3, if_pos h3, ih]
          · rw [if_neg h3, if_neg h3, ih]

theorem select_first_good (minCount : ℕ) (target : ℚ) :
    ∀ (l : List BoardGenerationResponse) (best : Option (BoardGenerationResponse × ℚ))
      (last : BoardGenerationResponse) (i : ℕ), i < l.length →
      (∀ j, j < i → ¬ (minCount ≤ (l.getD j default).words.length ∧
        |(l.getD j default).richness - target| ≤ 1/20)) →
      minCount ≤ (l.getD i default).words.length →
      |(l.getD i default).richness - target| ≤ 1/20 →
      generation_select minCount target l best last = l.getD i default := by
  intro l
  induction l with
  | nil =>
    intro best last i hi _ _ _
    exact absurd hi (by simp)
  | cons resp rest ih =>
    intro best last i hi hfirst hcnt htol
    cases i with
    | zero =>
      rw [List.getD_cons_zero] at hcnt htol ⊢
      have h1 : ¬ (resp.words.length < minCount) := by omega
      simp only [generation_select, if_neg h1, if_pos htol]
    | succ i =>
      have h0 := hfirst 0 (Nat.succ_pos i)
      rw [List.getD_cons_zero] at h0
      rw [List.getD_cons_succ] at hcnt htol ⊢
      have hfirst2 : ∀ j, j < i → ¬ (minCount ≤ (rest.getD j default).words.length ∧
          |(rest.getD j default).richness - target| ≤ 1/20) := by
        intro j hj
        have := hfirst (j + 1) (by omega)
        rwa [List.getD_cons_succ] at this
      have hi2 : i < rest.length := by
        simpa using hi
      simp only [generation_select]
      by_cases h1 : resp.words.length < minCount
      · rw [if_pos h1]
        exact ih _ _ i hi2 hfirst2 hcnt htol
      · rw [if_neg h1]
        have h2 : ¬ (|resp.richness - target| ≤ 1/20) := fun hc => h0 ⟨by omega, hc⟩
        rw [if_neg h2]
        cases best with
        | none => exact ih _ _ i hi2 hfirst2 hcnt htol
        | some p =>
          obtain ⟨bb, bd⟩ := p
          dsimp only
          by_cases h3 : |resp.richness - target| < bd
          · rw [if_pos h3]
            exact ih _ _ i hi2 hfirst2 hcnt htol
          · rw [if_neg h3]
            exact ih _ _ i hi2 hfirst2 hcnt htol

theorem select_best_from (minCount : ℕ) (target : ℚ) :
    ∀ (l : List BoardGenerationResponse) (last b : BoardGenerationResponse),
      (∀ a ∈ l, ¬ (minCount ≤ a.words.length ∧ |a.richness - target| ≤ 1/20)) →
      (generation_select minCount target l (some (b, |b.richness - target|)) last = b ∨
        (generation_select minCount target l (some (b, |b.richness - target|)) last ∈ l ∧
          minCount ≤ (generation_select minCount target l
            (some (b, |b.richness - target|)) last).words.length)) ∧
      |(generation_select minCount target l (some (b, |b.richness - target|)) last).richness -
        target| ≤ |b.richness - target| ∧
      (∀ a ∈ l, minCount ≤ a.words.length →
        |(generation_select minCount target l (some (b, |b.richness - target|)) last).richness -
          target| ≤ |a.richness - target|) := by
  intro l
  induction l with
  | nil =>
    intro last b _
    refine ⟨Or.inl rfl, le_refl _, ?_⟩
    intro a ha
    exact absurd ha (List.not_mem_nil a)
  | cons resp rest ih =>
    intro last b hno
    have hnores := hno resp (List.mem_cons_self resp rest)
    have hnorest : ∀ a ∈ rest, ¬ (minCount ≤ a.words.length ∧ |a.richness - target| ≤ 1/20) :=
      fun a ha => hno a (List.mem_cons_of_mem resp ha)
    by_cases h1 : resp.words.length < minCount
    · have heq : generation_select minCount target (resp :: rest)
          (some (b, |b.richness - target|)) last =
          generation_select minCount target rest (some (b, |b.richness - target|)) resp := by
        simp only [generation_select, if_pos h1]
      rw [heq]
      obtain ⟨hm, hd, hall⟩ := ih resp b hnorest
      refine ⟨?_, hd, ?_⟩
      · rcases hm with h | ⟨hmem, hok⟩
        · exact Or.inl h
        · exact Or.inr ⟨List.mem_cons_of_mem resp hmem, hok⟩
      · intro a ha hok
        rcases List.mem_cons.mp ha with rfl | ha2
        · exact absurd hok (by omega)
        · exact hall a ha2 hok
    · have h2 : ¬ (|resp.richness - target| ≤ 1/20) := fun hc => hnores ⟨by omega, hc⟩
      by_cases h3 : |resp.richness - target| < |b.richness - target|
      · have heq : generation_select minCount target (resp :: rest)
            (some (b, |b.richness - target|)) last =
            generation_select minCount target rest
              (some (resp, |resp.richness - target|)) resp := by
          simp only [generation_select, if_neg h1, if_neg h2, if_pos h3]
        rw [heq]
        obtain ⟨hm, hd, hall⟩ := ih resp resp hnorest
        refine ⟨?_, le_trans hd (le_of_lt h3), ?_⟩
        · rcases hm with h | ⟨hmem, hok⟩
          · refine Or.inr ⟨?_, ?_⟩
            · rw [h]; exact List.mem_cons_self resp rest
            · rw [h]; omega
          · exact Or.inr ⟨List.mem_cons_of_mem resp hmem, hok⟩
        · intro a ha hok
          rcases List.mem_cons.mp ha with rfl | ha2
          · exact hd
          · exact hall a ha2 hok
      · have heq : generation_select minCount target (resp :: rest)
            (some (b, |b.richness - target|)) last =
            generation_select minCount target rest (some (b, |b.richness - target|)) resp := by
          simp only [generation_select, if_neg h1, if_neg h2, if_neg h3]
        rw [heq]
        obtain ⟨hm, hd, hall⟩ := ih resp b hnorest
        refine ⟨?_, hd, ?_⟩
        · rcases hm with h | ⟨hmem, hok⟩
          · exact Or.inl h
          · exact Or.inr ⟨List.mem_cons_of_mem resp hmem, hok⟩
        · intro a ha hok
          rcases List.mem_cons.mp ha with rfl | ha2
          · exact le_trans hd (not_lt.mp h3)
          · exact hall a ha2 hok

theorem select_none_best (minCount : ℕ) (target : ℚ) :
    ∀ (l : List BoardGenerationResponse) (last : BoardGenerationResponse),
      (∀ a ∈ l, ¬ (minCount ≤ a.words.length ∧ |a.richness - target| ≤ 1/20)) →
      (∃ a ∈ l, minCount ≤ a.words.length) →
      generation_select minCount target l none last ∈ l ∧
      minCount ≤ (generation_select minCount target l none last).words.length ∧
      (∀ a ∈ l, minCount ≤ a.words.length →
        |(generation_select minCount target l none last).richness - target| ≤
          |a.richness - target|) := by
  intro l
  induction l with
  | nil =>
    intro last _ hex
    simp at hex
  | cons resp rest ih =>
    intro last hno hex
    have hnores := hno resp (List.mem_cons_self resp rest)
    have hnorest : ∀ a ∈ rest, ¬ (minCount ≤ a.words.length ∧ |a.richness - target| ≤ 1/20) :=
      fun a ha => hno a (List.mem_cons_of_mem resp ha)
    by_cases h1 : resp.words.length < minCount
    · have heq : generation_select minCount target (resp :: rest) none last =
          generation_select minCount target rest none resp := by
        simp only [generation_select, if_pos h1]
      rw [heq]
      have hex2 : ∃ a ∈ rest, minCount ≤ a.words.length := by
        rcases hex with ⟨a, ha, hok⟩
        rcases List.mem_cons.mp ha with rfl | ha2
        · exact absurd hok (by omega)
        · exact ⟨a, ha2, hok⟩
      obtain ⟨hmem, hok, hall⟩ := ih resp hnorest hex2
      refine ⟨List.mem_cons_of_mem resp hmem, hok, ?_⟩
      intro a ha hcnt
      rcases List.mem_cons.mp ha with rfl | ha2
      · exact absurd hcnt (by omega)
      · exact hall a ha2 hcnt
    · have h2 : ¬ (|resp.richness - target| ≤ 1/20) := fun hc => hnores ⟨by omega, hc⟩
      have heq : generation_select minCount target (resp :: rest) none last =
          generation_select minCount target rest
            (some (resp, |resp.richness - target|)) resp := by
        simp only [generation_select, if_neg h1, if_neg h2]
      rw [heq]
      obtain ⟨hm, hd, hall⟩ := select_best_from minCount target rest resp resp hnorest
      refine ⟨?_, ?_, ?_⟩
      · rcases hm with h | ⟨hmem, _⟩
        · rw [h]; exact List.mem_cons_self resp rest
        · exact List.mem_cons_of_mem resp hmem
      · rcases hm with h | ⟨_, hok⟩
        · rw [h]; omega
        · exact hok
      · intro a ha hcnt
        rcases List.mem_cons.mp ha with rfl | ha2
        · exact hd
        · exact hall a ha2 hcnt

theorem select_all_below (minCount : ℕ) (target : ℚ) :
    ∀ (l : List BoardGenerationResponse) (last : BoardGenerationResponse), l ≠ [] →
      (∀ a ∈ l, a.words.length < minCount) →
      generation_select minCount target l none last = l.getD (l.length - 1) default := by
  intro l
  induction l with
  | nil =>
    intro last h
    exact absurd rfl h
  | cons resp rest ih =>
    intro last _ hall
    have h1 : resp.words.length < minCount := hall resp (List.mem_cons_self resp rest)
    have heq : generation_select minCount target (resp :: rest) none last =
        generation_select minCount target rest none resp := by
      simp only [generation_select, if_pos h1]
    rw [heq]
    cases hr : rest with
    | nil => rfl
    | cons x xs =>
      have hne : rest ≠ [] := by rw [hr]; exact List.cons_ne_nil x xs
      rw [← hr]
      rw [ih resp hne (fun a ha => hall a (List.mem_cons_of_mem resp ha))]
      have hlen : (resp :: rest).length - 1 = (rest.length - 1) + 1 := by
        rw [hr]
        simp
      rw [hlen, List.getD_cons_succ]

/-- Claim C3: over the attempt sequence its random source yields,
_do_generate_board returns the first of the 200 loop attempts that meets
min_word_count with richness within 0.05 of the target; if none lies within
tolerance it returns a closest-to-target attempt among those meeting
min_word_count; and if no attempt meets min_word_count it returns the last
generated attempt. -/
theorem C3_do_generate_board_selection (svc : BoardServiceEnv)
    (req : BoardGenerationRequest) (r : Rng) :
    (∀ i, i < 200 →
      (∀ j, j < i → ¬ (meets_min_count req ((do_attempts svc req r).getD j default) ∧
        within_tolerance req ((do_attempts svc req r).getD j default))) →
      meets_min_count req ((do_attempts svc req r).getD i default) →
      within_tolerance req ((do_attempts svc req r).getD i default) →
      _do_generate_board svc req r = (do_attempts svc req r).getD i default) ∧
    ((∀ a ∈ do_attempts svc req r, ¬ (meets_min_count req a ∧ within_tolerance req a)) →
      (∃ a ∈ do_attempts svc req r, meets_min_count req a) →
      _do_generate_board svc req r ∈ do_attempts svc req r ∧
      meets_min_count req (_do_generate_board svc req r) ∧
      (∀ a ∈ do_attempts svc req r, meets_min_count req a →
        target_gap req (_do_generate_board svc req r) ≤ target_gap req a)) ∧
    ((∀ a ∈ do_attempts svc req r, ¬ meets_min_count req a) →
      _do_generate_board svc req r = (do_attempts svc req r).getD 199 default) := by
  have hlen : (do_attempts svc req r).length = 200 :=
    attempt_list_length svc req 200 (gen_attempt svc req r).2
  have hdo : _do_generate_board svc req r =
      generation_select req.min_word_count req.target_richness (do_attempts svc req r) none
        (gen_attempt svc req r).1 := by
    unfold _do_generate_board do_attempts
    exact gen_loop_eq_select svc req 200 (gen_attempt svc req r).2 none (gen_attempt svc req r).1
  refine ⟨?_, ?_, ?_⟩
  · intro i hi hfirst hcnt htol
    rw [hdo]
    exact select_first_good req.min_word_count req.target_richness (do_attempts svc req r)
      none (gen_attempt svc req r).1 i (by rw [hlen]; exact hi)
      (fun j hj => hfirst j hj) hcnt htol
  · intro hno hex
    rw [hdo]
    exact select_none_best req.min_word_count req.target_richness (do_attempts svc req r)
      (gen_attempt svc req r).1 hno hex
  · intro hbelow
    rw [hdo]
    have := select_all_below req.min_word_count req.target_richness (do_attempts svc req r)
      (gen_attempt svc req r).1 (by rw [← List.length_pos_iff_ne_nil, hlen]; omega)
      (fun a ha => by
        have := hbelow a ha
        unfold meets_min_count at this
        omega)
    rw [this, hlen]

theorem C3_witness :
    _do_generate_board svcEmpty reqSize3 rngZero =
      (do_attempts svcEmpty reqSize3 rngZero).getD 0 default :=
  (C3_do_generate_board_selection svcEmpty reqSize3 rngZero).1 0 (by omega)
    (fun j hj => absurd hj (Nat.not_lt_zero j))
    (Nat.zero_le _)
    (by with_unfolding_all decide)

/-- Claim C6, counterexample: the cache is keyed by seed alone, not by the
request, so a generate_board call for one request can pollute the entry
another request reads.  Concretely, generate_board(reqSize4, seed=7) invoked
after generate_board(reqSize3, seed=7) returns the cached 3-by-3 board
(pollutedResult4), while the same invocation on a fresh empty cache returns a
4-by-4 board (freshResult4): two invocations of generate_board with the same
seed, request and loaded dictionary yield different grids. -/
theorem C6_counterexample : pollutedResult4.grid ≠ freshResult4.grid := by
  with_unfolding_all decide

/-- Claim C6 as amended: two seeded generate_board invocations for the same
request over the same loaded dictionary agree whenever each starts from a
cache whose single-board entry for that seed (if any) is the seeded
computation for this same request - in particular on fresh instances with
empty caches, and after any sequence of same-request calls.  The seeded
computation itself depends only on the dictionary, the request and the
seed. -/
theorem C6_generate_board_deterministic (svc : BoardServiceEnv)
    (req : BoardGenerationRequest) (s : ℤ) (r1 r2 : Rng)
    (c1 c2 : List (ℤ × CacheItem))
    (h1 : ∀ b, lookupCache c1 s = some (CacheItem.single b) →
      b = _do_generate_board svc req (mkSeededRng svc s))
    (h2 : ∀ b, lookupCache c2 s = some (CacheItem.single b) →
      b = _do_generate_board svc req (mkSeededRng svc s)) :
    (generate_board svc req (some s) r1 c1).1 = (generate_board svc req (some s) r2 c2).1 := by
  have key : ∀ (c : List (ℤ × CacheItem)) (rr : Rng),
      (∀ b, lookupCache c s = some (CacheItem.single b) →
        b = _do_generate_board svc req (mkSeededRng svc s)) →
      (generate_board svc req (some s) rr c).1 =
        _do_generate_board svc req (mkSeededRng svc s) := by
    intro c rr hc
    cases hl : lookupCache c s with
    | none => simp only [generate_board, _get_from_cache, hl]
    | some item =>
      cases item with
      | single b =>
        simp only [generate_board, _get_from_cache, hl]
        exact hc b hl
      | multiple bs => simp only [generate_board, _get_from_cache, hl]
  rw [key c1 r1 h1, key c2 r2 h2]

theorem C6_witness :
    (generate_board svcEmpty reqSize3 (some 7) rngZero cacheAfter3).1 =
      (generate_board svcEmpty reqSize3 (some 7) rngZero []).1 :=
  C6_generate_board_deterministic svcEmpty reqSize3 7 rngZero rngZero cacheAfter3 []
    (by
      intro b hb
      have hx : lookupCache cacheAfter3 7 =
          some (CacheItem.single (_do_generate_board svcEmpty reqSize3
            (mkSeededRng svcEmpty 7))) := by
        with_unfolding_all rfl
      rw [hx] at hb
      injection hb with hb2
      injection hb2 with hb3
      exact hb3.symm)
    (fun b hb => absurd hb (by simp [lookupCache]))

theorem listSet_getD_ne {α : Type} (d a : α) :
    ∀ (l : List α) (i j : ℕ), i ≠ j → (l.set i a).getD j d = l.getD j d := by
  intro l
  induction l with
  | nil => intro i j _; simp
  | cons x xs ih =>
    intro i j h
    cases i with
    | zero =>
      cases j with
      | zero => exact absurd rfl h
      | succ j => simp [List.getD_cons_succ]
    | succ i =>
      cases j with
      | zero => simp
      | succ j => simpa [List.getD_cons_succ] using ih i j (by omega)

theorem listSet_getD_self {α : Type} (d a : α) :
    ∀ (l : List α) (i : ℕ), i < l.length → (l.set i a).getD i d = a := by
  intro l
  induction l with
  | nil => intro i h; simp at h
  | cons x xs ih =>
    intro i h
    cases i with
    | zero => simp
    | succ i => simpa [List.getD_cons_succ] using ih i (by simpa using h)

theorem listGetD_mem {α : Type} (d : α) :
    ∀ (l : List α) (i : ℕ), i < l.length → l.getD i d ∈ l := by
  intro l
  induction l with
  | nil => intro i h; simp at h
  | cons x xs ih =>
    intro i h
    cases i with
    | zero => simp
    | succ i =>
      rw [List.getD_cons_succ]
      exact List.mem_cons_of_mem x (ih i (by simpa using h))

theorem setCell_square (n : ℕ) (g : GridL) (p : ℤ × ℤ) (c : Char)
    (hp : inBounds n p) (hsq : squareGrid n g) : squareGrid n (setCell g p c) := by
  obtain ⟨hp1, hp2, hp3, hp4⟩ := hp
  have hrlt : p.1.toNat < g.length := by
    rw [hsq.1]
    omega
  unfold setCell
  rw [if_pos ⟨hp1, hp3⟩]
  constructor
  · rw [List.length_set]
    exact hsq.1
  · intro row hrow
    rcases List.mem_or_eq_of_mem_set hrow with h | h
    · exact hsq.2 row h
    · rw [h, List.length_set]
      exact hsq.2 _ (listGetD_mem [] g p.1.toNat hrlt)

theorem getCell_setCell_self (n : ℕ) (g : GridL) (p : ℤ × ℤ) (c : Char)
    (hp : inBounds n p) (hsq : squareGrid n g) : getCell (setCell g p c) p = some c := by
  obtain ⟨hp1, hp2, hp3, hp4⟩ := hp
  have hnn : 0 ≤ p.1 ∧ 0 ≤ p.2 := ⟨hp1, hp3⟩
  have hrlt : p.1.toNat < g.length := by
    rw [hsq.1]
    omega
  have hrow : (g.getD p.1.toNat []).length = n := hsq.2 _ (listGetD_mem [] g p.1.toNat hrlt)
  have hclt : p.2.toNat < (g.getD p.1.toNat []).length := by
    rw [hrow]
    omega
  unfold setCell getCell
  rw [if_pos hnn, if_pos hnn, listSet_getD_self _ _ g p.1.toNat hrlt,
    listSet_getD_self _ _ _ p.2.toNat hclt]

theorem getCell_setCell_ne (n : ℕ) (g : GridL) (p q : ℤ × ℤ) (c : Char)
    (hp : inBounds n p) (hq : q ≠ p) : getCell (setCell g p c) q = getCell g q := by
  obtain ⟨hp1, hp2, hp3, hp4⟩ := hp
  have hnn : 0 ≤ p.1 ∧ 0 ≤ p.2 := ⟨hp1, hp3⟩
  unfold setCell getCell
  rw [if_pos hnn]
  by_cases hqs : 0 ≤ q.1 ∧ 0 ≤ q.2
  · rw [if_pos hqs, if_pos hqs]
    by_cases hrow : p.1.toNat = q.1.toNat
    · have hr : p.1 = q.1 := by omega
      have hc2 : p.2 ≠ q.2 := by
        intro hcol
        exact hq (Prod.ext hr.symm hcol.symm)
      have hcn : p.2.toNat ≠ q.2.toNat := by omega
      by_cases hlen : p.1.toNat < g.length
      · rw [← hrow, listSet_getD_self _ _ g p.1.toNat hlen,
          listSet_getD_ne _ _ _ p.2.toNat q.2.toNat hcn]
      · rw [List.set_eq_of_length_le (by omega)]
    · rw [listSet_getD_ne _ _ g p.1.toNat q.1.toNat hrow]
  · rw [if_neg hqs, if_neg hqs]

theorem place_untouched (n : ℕ) :
    ∀ (path : List (ℤ × ℤ)) (w : List Char) (g : GridL) (q : ℤ × ℤ),
      (∀ p ∈ path, inBounds n p) → q ∉ path →
      getCell (_place_word_along_path g w path) q = getCell g q := by
  intro path
  induction path with
  | nil =>
    intro w g q _ _
    cases w <;> rfl
  | cons p ps ih =>
    intro w g q hb hq
    cases w with
    | nil => rfl
    | cons c cs =>
      have hstep : _place_word_along_path g (c :: cs) (p :: ps) =
          _place_word_along_path (setCell g p c) cs ps := by
        simp only [_place_word_along_path, List.zip_cons_cons, List.foldl_cons]
      rw [hstep, ih cs (setCell g p c) q (fun a ha => hb a (List.mem_cons_of_mem p ha))
        (fun hc => hq (List.mem_cons_of_mem p hc))]
      exact getCell_setCell_ne n g p q c (hb p (List.mem_cons_self p ps))
        (fun hc => hq (hc ▸ List.mem_cons_self p ps))

theorem place_getD (n : ℕ) :
    ∀ (path : List (ℤ × ℤ)) (w : List Char) (g : GridL),
      squareGrid n g → path.Nodup → (∀ p ∈ path, inBounds n p) →
      path.length = w.length →
      ∀ k, k < path.length →
        getCell (_place_word_along_path g w path) (path.getD k (0, 0)) =
          some (w.getD k 'A') := by
  intro path
  induction path with
  | nil =>
    intro w g _ _ _ _ k hk
    simp at hk
  | cons p ps ih =>
    intro w g hsq hnd hb hlen k hk
    cases w with
    | nil => simp at hlen
    | cons c cs =>
      have hstep : _place_word_along_path g (c :: cs) (p :: ps) =
          _place_word_along_path (setCell g p c) cs ps := by
        simp only [_place_word_along_path, List.zip_cons_cons, List.foldl_cons]
      have hpb : inBounds n p := hb p (List.mem_cons_self p ps)
      cases k with
      | zero =>
        rw [List.getD_cons_zero, List.getD_cons_zero, hstep]
        rw [place_untouched n ps cs (setCell g p c) p
          (fun a ha => hb a (List.mem_cons_of_mem p ha))
          (List.Nodup.not_mem hnd)]
        exact getCell_setCell_self n g p c hpb hsq
      | succ k =>
        rw [List.getD_cons_succ, List.getD_cons_succ, hstep]
        exact ih cs (setCell g p c) (setCell_square n g p c hpb hsq)
          (List.Nodup.of_cons hnd) (fun a ha => hb a (List.mem_cons_of_mem p ha))
          (by simpa using hlen) k (by simpa using hk)

theorem mem_get_neighbors (n : ℕ) (x y : ℤ) (q : ℤ × ℤ)
    (h : q ∈ _get_neighbors n x y) : inBounds n q ∧ adj8 (x, y) q := by
  unfold _get_neighbors at h
  rw [List.mem_filterMap] at h
  obtain ⟨d, hd, hq⟩ := h
  by_cases hc : 0 ≤ x + d.1 ∧ x + d.1 < (n : ℤ) ∧ 0 ≤ y + d.2 ∧ y + d.2 < (n : ℤ)
  · rw [if_pos hc] at hq
    injection hq with hq2
    subst hq2
    refine ⟨⟨hc.1, hc.2.1, hc.2.2.1, hc.2.2.2⟩, ?_⟩
    fin_cases hd <;> simp [adj8, Prod.ext_iff]
  · rw [if_neg hc] at hq
    exact Option.noConfusion hq

theorem choiceD_mem {α : Type} (r : Rng) (l : List α) (d : α) (h : l ≠ []) :
    (r.choiceD l d).1 ∈ l := by
  have hpos : 0 < l.length := List.length_pos_of_ne_nil h
  simp only [Rng.choiceD, Rng.next]
  exact listGetD_mem d l _ (Nat.mod_lt _ hpos)

theorem randrange_lt (r : Rng) (n : ℕ) (hn : 0 < n) : (r.randrange n).1 < n := by
  simp only [Rng.randrange, Rng.next]
  exact Nat.mod_lt _ hn

theorem seedPathBuild_invariant (n : ℕ) :
    ∀ (cs : List Char) (cur : ℤ × ℤ) (path : List (ℤ × ℤ)) (r : Rng),
      path.Nodup → (∀ p ∈ path, inBounds n p) → List.Chain' adj8 path →
      path.getLast? = some cur →
      (seedPathBuild n cs cur path r).2.1.Nodup ∧
      (∀ p ∈ (seedPathBuild n cs cur path r).2.1, inBounds n p) ∧
      List.Chain' adj8 (seedPathBuild n cs cur path r).2.1 ∧
      ((seedPathBuild n cs cur path r).1 = true →
        (seedPathBuild n cs cur path r).2.1.length = path.length + cs.length) := by
  intro cs
  induction cs with
  | nil =>
    intro cur path r h1 h2 h3 _
    simp only [seedPathBuild]
    exact ⟨h1, h2, h3, fun _ => by simp⟩
  | cons c cst ih =>
    intro cur path r h1 h2 h3 hlast
    simp only [seedPathBuild]
    split
    · exact ⟨h1, h2, h3, fun hf => by simp at hf⟩
    · next hop =>
      have hpickmem := choiceD_mem r _ ((0, 0) : ℤ × ℤ) hop
      rw [List.mem_filter] at hpickmem
      obtain ⟨hnb, hnpb⟩ := hpickmem
      have hnp : (r.choiceD ((_get_neighbors n cur.1 cur.2).filter fun q => ¬ q ∈ path)
          (0, 0)).1 ∉ path := by
        simpa using hnpb
      obtain ⟨hbnd, hadj⟩ := mem_get_neighbors n cur.1 cur.2 _ hnb
      have hadj2 : adj8 cur
          (r.choiceD ((_get_neighbors n cur.1 cur.2).filter fun q => ¬ q ∈ path) (0, 0)).1 := by
        simpa using hadj
      have hnodup2 : (path ++ [(r.choiceD ((_get_neighbors n cur.1 cur.2).filter
          fun q => ¬ q ∈ path) (0, 0)).1]).Nodup := by
        rw [← List.concat_eq_append]
        exact List.Nodup.concat hnp h1
      have hbounds2 : ∀ p ∈ path ++ [(r.choiceD ((_get_neighbors n cur.1 cur.2).filter
          fun q => ¬ q ∈ path) (0, 0)).1], inBounds n p := by
        intro p hp
        rcases List.mem_append.mp hp with h | h
        · exact h2 p h
        · rw [List.mem_singleton] at h
          rw [h]
          exact hbnd
      have hchain2 : List.Chain' adj8 (path ++ [(r.choiceD ((_get_neighbors n cur.1 cur.2).filter
          fun q => ¬ q ∈ path) (0, 0)).1]) := by
        rw [List.chain'_append]
        refine ⟨h3, List.chain'_singleton _, ?_⟩
        intro x hx y hy
        rw [hlast] at hx
        injection hx with hx2
        rw [List.head?_cons] at hy
        injection hy with hy2
        rw [← hx2, ← hy2]
        exact hadj2
      have hlast2 : (path ++ [(r.choiceD ((_get_neighbors n cur.1 cur.2).filter
          fun q => ¬ q ∈ path) (0, 0)).1]).getLast? =
          some (r.choiceD ((_get_neighbors n cur.1 cur.2).filter
            fun q => ¬ q ∈ path) (0, 0)).1 :=
        List.getLast?_concat _
      obtain ⟨ha, hb2, hc2, hd2⟩ := ih _ _ _ hnodup2 hbounds2 hchain2 hlast2
      refine ⟨ha, hb2, hc2, fun hs => ?_⟩
      have := hd2 hs
      rw [this, List.length_append]
      simp
      omega

theorem seed_attempts_cases (grid : GridL) (w : List Char)
    (hn : 0 < grid.length) :
    ∀ (k : ℕ) (r : Rng),
      ((_seed_word_path_attempts grid w k r).1 = false →
        (_seed_word_path_attempts grid w k r).2.1 = grid) ∧
      ((_seed_word_path_attempts grid w k r).1 = true →
        ∃ path : List (ℤ × ℤ), path.length = w.length ∧ path.Nodup ∧
          (∀ p ∈ path, inBounds grid.length p) ∧ List.Chain' adj8 path ∧
          (_seed_word_path_attempts grid w k r).2.1 = _place_word_along_path grid w path) := by
  intro k
  induction k with
  | zero =>
    intro r
    exact ⟨fun _ => rfl, fun h => by simp [_seed_word_path_attempts] at h⟩
  | succ k ih =>
    intro r
    simp only [_seed_word_path_attempts]
    split
    · next hcond =>
      obtain ⟨hb1, hb2⟩ := hcond
      constructor
      · intro hf
        simp at hf
      · intro _
        have hstart : inBounds grid.length
            (((r.randrange grid.length).1 : ℤ),
             (((r.randrange grid.length).2.randrange grid.length).1 : ℤ)) := by
          have ha := randrange_lt r grid.length hn
          have hb := randrange_lt (r.randrange grid.length).2 grid.length hn
          refine ⟨Int.natCast_nonneg _, ?_, Int.natCast_nonneg _, ?_⟩
          · show ((r.randrange grid.length).1 : ℤ) < (grid.length : ℤ)
            exact_mod_cast ha
          · show (((r.randrange grid.length).2.randrange grid.length).1 : ℤ) <
              (grid.length : ℤ)
            exact_mod_cast hb
        obtain ⟨hand, hbnd, hchn, _⟩ := seedPathBuild_invariant grid.length w.tail
          (((r.randrange grid.length).1 : ℤ),
           (((r.randrange grid.length).2.randrange grid.length).1 : ℤ))
          [(((r.randrange grid.length).1 : ℤ),
            (((r.randrange grid.length).2.randrange grid.length).1 : ℤ))]
          ((r.randrange grid.length).2.randrange grid.length).2
          (List.nodup_singleton _)
          (by
            intro p hp
            rw [List.mem_singleton] at hp
            rw [hp]
            exact hstart)
          (List.chain'_singleton _)
          rfl
        exact ⟨_, hb2, hand, hbnd, hchn, rfl⟩
    · exact ih _

/-- Claim C10: _seed_word_path leaves the grid unchanged when it returns
false (every failed attempt mutates nothing), and when it returns true the
upper-cased word's letters stand along a pairwise-distinct, consecutively
8-adjacent, in-bounds path whose length is the word's length, with every
other cell unchanged. -/
theorem C10_seed_word_path_frame (grid : GridL) (word : String) (r : Rng)
    (hn : 0 < grid.length) (hsq : squareGrid grid.length grid) :
    ((_seed_word_path grid word r).1 = false → (_seed_word_path grid word r).2.1 = grid) ∧
    ((_seed_word_path grid word r).1 = true → ∃ path : List (ℤ × ℤ),
      path.length = word.toUpper.data.length ∧ path.Nodup ∧
      (∀ p ∈ path, inBounds grid.length p) ∧ List.Chain' adj8 path ∧
      (∀ k, k < path.length →
        getCell (_seed_word_path grid word r).2.1 (path.getD k (0, 0)) =
          some (word.toUpper.data.getD k 'A')) ∧
      (∀ q, q ∉ path → getCell (_seed_word_path grid word r).2.1 q = getCell grid q)) := by
  unfold _seed_word_path
  obtain ⟨hfalse, htrue⟩ := seed_attempts_cases grid word.toUpper.data hn 50 r
  refine ⟨hfalse, fun hs => ?_⟩
  obtain ⟨path, hlen, hnd, hb, hch, heq⟩ := htrue hs
  refine ⟨path, hlen, hnd, hb, hch, ?_, ?_⟩
  · intro k hk
    rw [heq]
    exact place_getD grid.length path word.toUpper.data grid hsq hnd hb hlen k hk
  · intro q hq
    rw [heq]
    exact place_untouched grid.length path word.toUpper.data grid q hb hq

theorem C10_witness :
    ((_seed_word_path [[some 'X']] "A" rngZero).1 = false →
      (_seed_word_path [[some 'X']] "A" rngZero).2.1 = [[some 'X']]) ∧
    ((_seed_word_path [[some 'X']] "A" rngZero).1 = true → ∃ path : List (ℤ × ℤ),
      path.length = ("A" : String).toUpper.data.length ∧ path.Nodup ∧
      (∀ p ∈ path, inBounds ([[some 'X']] : GridL).length p) ∧ List.Chain' adj8 path ∧
      (∀ k, k < path.length →
        getCell (_seed_word_path [[some 'X']] "A" rngZero).2.1 (path.getD k (0, 0)) =
          some (("A" : String).toUpper.data.getD k 'A')) ∧
      (∀ q, q ∉ path →
        getCell (_seed_word_path [[some 'X']] "A" rngZero).2.1 q =
          getCell [[some 'X']] q)) :=
  C10_seed_word_path_frame [[some 'X']] "A" rngZero (by decide) (by decide)
